import Mathlib

/-
  Verification development for the YouTrack synchronization script
  (src/main.py).  The Python source is shallowly embedded: JSON values
  become the inductive `JVal`, Python `None` is `JVal.null` (and `Option`
  is used where Python code may raise), `datetime` values are represented
  by their Unix epoch in milliseconds (an `Int`), and `timedelta` values
  by their total number of minutes.  Python exceptions (KeyError,
  AttributeError, TypeError, pydantic ValidationError) are modelled as
  `none` results.  Restrictions of the embedding, noted where relevant:
  the regex digit class is modelled as ASCII digits, and the
  `customFields` member, when present, is taken to be a JSON array (the
  shape the API contract guarantees).
-/

/-- A JSON value as produced by `response.json()`:  `null` also stands for
    Python `None` (e.g. the result of `dict.get` on a missing key). -/
inductive JVal where
  | null : JVal
  | int : Int → JVal
  | str : String → JVal
  | arr : List JVal → JVal
  | obj : List (String × JVal) → JVal

/-- A raw issue record: a JSON object, as a list of key/value pairs
    (keys unique, first binding wins as in a Python dict). -/
abbrev RawRecord := List (String × JVal)

/-- Python truthiness of a JSON value (`if not x`, `x or y`). -/
def truthy : JVal → Bool
  | JVal.null => false
  | JVal.int n => n != 0
  | JVal.str s => s != ""
  | JVal.arr l => !l.isEmpty
  | JVal.obj d => !d.isEmpty

/-- Python `v == s` where `s` is a `str`: true only for an equal string. -/
def isStrEq (v : JVal) (s : String) : Bool :=
  match v with
  | JVal.str t => t == s
  | _ => false

/-- Lookup of a key in a JSON object; `none` means the key is absent. -/
def objFind (d : List (String × JVal)) (k : String) : Option JVal :=
  (d.find? (fun kv => kv.1 == k)).map (fun kv => kv.2)

/-- Python `d.get(k)`: `None` when the key is absent. -/
def objGet (d : List (String × JVal)) (k : String) : JVal :=
  (objFind d k).getD JVal.null

/-- Python `d.get(k, dflt)` on a record known to be a dict. -/
def recGetD (r : RawRecord) (k : String) (dflt : JVal) : JVal :=
  (objFind r k).getD dflt

/-- Python `a or b`. -/
def pyOr (a b : JVal) : JVal :=
  if truthy a then a else b

/-- Python `v.get(k, dflt)` on an arbitrary value: only a dict has `.get`,
    anything else raises AttributeError (modelled as `none`). -/
def pyDictGetD (v : JVal) (k : String) (dflt : JVal) : Option JVal :=
  match v with
  | JVal.obj d => some ((objFind d k).getD dflt)
  | _ => none

/-- Iterating a JSON value as a list of custom-field entries.  The API
    contract makes `customFields` an array; a non-array value is modelled
    as a failure (in Python a non-iterable raises TypeError here). -/
def asArr (v : JVal) : Option (List JVal) :=
  match v with
  | JVal.arr l => some l
  | _ => none

/-- pydantic v1 validation of a required `str` field: strings pass,
    ints are coerced with `str()`, anything else is a ValidationError. -/
def pyStr (v : JVal) : Option String :=
  match v with
  | JVal.str s => some s
  | JVal.int n => some (toString n)
  | _ => none

/-- pydantic v1 validation of an `Optional[str]` field. -/
def pyOptStr (v : JVal) : Option (Option String) :=
  match v with
  | JVal.null => some none
  | v => (pyStr v).map some

/-- Embedding of `get_custom_field_value(custom_fields, field_name)` from src/main.py.
    Scans the entries in order; on the first entry whose `name` equals the
    target, returns its `value`, unwrapped through
    `value.get('presentation') or value.get('name')` when the value is a
    dict.  `some JVal.null` is the Python `None` returned when no entry
    matches; `none` models an exception (a KeyError on `'name'`/`'value'`
    or subscripting a non-dict entry). -/
def get_custom_field_value : List JVal → String → Option JVal
  | [], _ => some JVal.null
  | f :: rest, field_name =>
    match f with
    | JVal.obj d =>
      match objFind d "name" with
      | none => none
      | some nv =>
        if isStrEq nv field_name then
          match objFind d "value" with
          | none => none
          | some value =>
            match value with
            | JVal.obj vd => some (pyOr (objGet vd "presentation") (objGet vd "name"))
            | _ => some value
        else
          get_custom_field_value rest field_name
    | _ => none

/-- The four unit characters of the duration regex `(\d+)([ндчм])`. -/
def unitChars : List Char := ['н', 'д', 'ч', 'м']

/-- Scanner behind `findTokens`.  `pending = some n` means we are inside
    a digit run whose numeric value so far is `n` (Python `int(...)` of
    the digits read); a following unit character closes a token, while a
    digit run that ends any other way matches nothing (every start
    position inside it fails) and scanning resumes at the next character,
    which can start a match only if it is a digit. -/
def findTokensAcc : Option Nat → List Char → List (Nat × Char)
  | _, [] => []
  | some n, c :: cs =>
    if c.isDigit then findTokensAcc (some (10 * n + (c.toNat - 48))) cs
    else if c ∈ unitChars then (n, c) :: findTokensAcc none cs
    else findTokensAcc none cs
  | none, c :: cs =>
    if c.isDigit then findTokensAcc (some (c.toNat - 48)) cs
    else findTokensAcc none cs

/-- Model of `re.findall(r'(\d+)([ндчм])', s)`: every maximal digit run immediately
    followed by a unit character yields a token; everything else is
    skipped.  (Digits are modelled as ASCII digits.) -/
def findTokens (l : List Char) : List (Nat × Char) :=
  findTokensAcc none l

/-- The keyword-argument dictionary built by `parse_time_string`
    (`time_kwargs`): which of the four units have been assigned, and to
    what amount. -/
structure TimeKwargs where
  weeks : Option Nat
  days : Option Nat
  hours : Option Nat
  minutes : Option Nat
deriving DecidableEq

def emptyKwargs : TimeKwargs := ⟨none, none, none, none⟩

/-- The assignment `time_kwargs[time_mapping[unit]] = int(amount)`. -/
def setUnit (k : TimeKwargs) (u : Char) (n : Nat) : TimeKwargs :=
  if u = 'н' then { k with weeks := some n }
  else if u = 'д' then { k with days := some n }
  else if u = 'ч' then { k with hours := some n }
  else if u = 'м' then { k with minutes := some n }
  else k

/-- One iteration of the `for amount, unit in ...findall(...)` loop,
    including the (always-true for regex tokens) `if unit in time_mapping`
    guard. -/
def kwStep (k : TimeKwargs) (t : Nat × Char) : TimeKwargs :=
  if t.2 ∈ unitChars then setUnit k t.2 t.1 else k

def buildKwargs (toks : List (Nat × Char)) : TimeKwargs :=
  toks.foldl kwStep emptyKwargs

/-- Read one unit's entry back out of the kwargs dictionary. -/
def kwargsGet (k : TimeKwargs) (u : Char) : Option Nat :=
  if u = 'н' then k.weeks
  else if u = 'д' then k.days
  else if u = 'ч' then k.hours
  else if u = 'м' then k.minutes
  else none

/-- Total minutes of `timedelta(**time_kwargs)` (absent keys default
    to 0, as for omitted timedelta arguments). -/
def toMinutes (k : TimeKwargs) : Nat :=
  10080 * k.weeks.getD 0 + 1440 * k.days.getD 0 + 60 * k.hours.getD 0 + k.minutes.getD 0

/-- Embedding of `parse_time_string` from src/main.py, on the JSON value handed to it
    by `get_issues`.  A falsy argument (`None`, `''`, ...) yields the zero
    timedelta; a truthy string is scanned for tokens; a truthy non-string
    raises TypeError inside `re.findall` (modelled as `none`).  A
    timedelta is represented by its total number of minutes. -/
def parse_time_string (v : JVal) : Option Int :=
  if truthy v then
    match v with
    | JVal.str s => some ((toMinutes (buildKwargs (findTokens s.data)) : Nat) : Int)
    | _ => none
  else
    some 0

example : parse_time_string (JVal.str "2д3ч") = some 3060 := by rfl
example : parse_time_string (JVal.str "5ч5ч") = some 300 := by rfl
example : parse_time_string (JVal.str "") = some 0 := by rfl
example : parse_time_string JVal.null = some 0 := by rfl

/-- The `Issue` pydantic model of src/main.py.  `datetime` is represented
    by its Unix epoch in milliseconds, `timedelta` by its total number of
    minutes (for the values this program builds, both are exact). -/
structure Issue where
  issue_id : String
  summary : String
  description : Option String
  project : String
  reporter : String
  status : Option String
  start_date : Option Int
  estimation : Option Int
  time_spent : Option Int
deriving DecidableEq

/-- Model of `datetime.fromtimestamp(int(v) / 1000) if isinstance(v, int) else None`:
    an integer-typed value is interpreted as Unix milliseconds and becomes
    a timestamp (represented by that same millisecond count); anything
    else yields `None`. -/
def startDateOf (v : JVal) : Option Int :=
  match v with
  | JVal.int n => some n
  | _ => none

/-- The body of the `for issue in issues` loop of `get_issues`: maps one
    raw record to an `Issue`, `none` modelling any exception raised while
    mapping (an `AttributeError` from `.get` on a non-dict
    project/reporter, an exception inside `get_custom_field_value` or
    `parse_time_string`, or a pydantic `ValidationError`). -/
def mapIssue (r : RawRecord) : Option Issue :=
  (pyDictGetD (recGetD r "project" (JVal.obj [])) "name" (JVal.str "N/A")).bind fun projectV =>
  (pyDictGetD (recGetD r "reporter" (JVal.obj [])) "fullName" (JVal.str "N/A")).bind fun reporterV =>
  (asArr (recGetD r "customFields" (JVal.arr []))).bind fun cfs =>
  (get_custom_field_value cfs "Статус DEV").bind fun statusV =>
  (get_custom_field_value cfs "Оценка").bind fun estimationV =>
  (get_custom_field_value cfs "Реально затраченное время").bind fun timeSpentV =>
  (get_custom_field_value cfs "Дата начала").bind fun startV =>
  (parse_time_string estimationV).bind fun estMin =>
  (parse_time_string timeSpentV).bind fun spentMin =>
  (pyStr (recGetD r "idReadable" (JVal.str "N/A"))).bind fun issue_id =>
  (pyStr (recGetD r "summary" (JVal.str "N/A"))).bind fun summary =>
  (pyOptStr (recGetD r "description" (JVal.str "N/A"))).bind fun description =>
  (pyStr projectV).bind fun project =>
  (pyStr reporterV).bind fun reporter =>
  (pyOptStr statusV).bind fun status =>
  some { issue_id := issue_id, summary := summary, description := description,
         project := project, reporter := reporter, status := status,
         start_date := startDateOf startV,
         estimation := some estMin, time_spent := some spentMin }

/-- Mapping of one page of records, in order; an exception on any record
    aborts the whole call (the Python loop appends as it goes, but the
    exception escapes `get_issues` entirely, so no partial result is
    observable). -/
def mapRecords : List RawRecord → Option (List Issue)
  | [] => some []
  | r :: rs =>
    match mapIssue r, mapRecords rs with
    | some i, some is => some (i :: is)
    | _, _ => none

/-- One HTTP response in the pagination loop: the status code and, for a
    200 response, the JSON array body (a list of raw records).  The body
    of a non-200 response is never parsed by the code, so the `records`
    field of such a response is simply ignored. -/
structure HResp where
  status : Nat
  records : List RawRecord

/-- A successful page. -/
def mkOk (records : List RawRecord) : HResp := ⟨200, records⟩

/-- The constant `batch_size = 100` from `get_issues`. -/
def batch_size : Nat := 100

/-- The `while True` pagination loop of `get_issues`.  `responses` scripts
    the successive server responses (request number `i` is issued with
    `$skip` equal to the `start` offset threaded here, and `$top =
    batch_size`); `offsets` accumulates the `$skip` value of every request
    already performed, `acc` the issues accumulated so far.  Result:
    `some (issues, offsets)` when the loop breaks (empty page or non-200
    status), `none` when an exception escapes while mapping a record or
    when the script runs out of responses (the loop would keep
    requesting). -/
def get_issues_loop : List HResp → Nat → List Nat → List Issue → Option (List Issue × List Nat)
  | [], _, _, _ => none
  | resp :: rest, start, offsets, acc =>
    if resp.status = 200 then
      if resp.records.isEmpty then
        some (acc, offsets ++ [start])
      else
        match mapRecords resp.records with
        | none => none
        | some new => get_issues_loop rest (start + batch_size) (offsets ++ [start]) (acc ++ new)
    else
      some (acc, offsets ++ [start])

/-- Embedding of `get_issues` from src/main.py, over a scripted list of server
    responses: starts at offset 0 with nothing accumulated and returns
    the fetched issues together with the list of offsets requested. -/
def get_issues (responses : List HResp) : Option (List Issue × List Nat) :=
  get_issues_loop responses 0 [] []

/-- The `$skip` offsets of `n` consecutive requests starting at `start`,
    each advancing by `batch_size`. -/
def pageOffsets (start : Nat) : Nat → List Nat
  | 0 => []
  | n + 1 => start :: pageOffsets (start + batch_size) n

/-- Upsert of one row: `INSERT ... ON CONFLICT (issue_id) DO UPDATE SET`
    every non-key column to the excluded (new) row's values — on a
    conflicting `issue_id` the stored row becomes the new entity, on a
    fresh `issue_id` the new row is appended. -/
def upsertRow (table : List Issue) (i : Issue) : List Issue :=
  if ∃ r ∈ table, r.issue_id = i.issue_id then
    table.map (fun r => if r.issue_id = i.issue_id then i else r)
  else
    table ++ [i]

/-- The statement loop of `insert_into_postgres`: one upsert per entity,
    in sequence order. -/
def insert_into_postgres (table : List Issue) (issues : List Issue) : List Issue :=
  issues.foldl upsertRow table

/-- The rows of a table holding a given `issue_id`. -/
def rowsFor (table : List Issue) (k : String) : List Issue :=
  table.filter (fun r => r.issue_id == k)

/-- The `unique_issue_id` constraint of the `issues` table: no two rows
    share an `issue_id`. -/
def uniqueIds (table : List Issue) : Prop :=
  table.Pairwise (fun a b => a.issue_id ≠ b.issue_id)

/-- The operations `insert_into_postgres` issues on its connection. -/
inductive PgOp where
  | upsert : Issue → PgOp
  | commitTx : PgOp
deriving DecidableEq

/-- The operations actually performed by `insert_into_postgres` when
    statement number `n` (0-based) fails iff `fails n`: the loop executes
    one upsert per issue and `conn.commit()` runs once, after the whole
    batch, only if no statement raised (the exception escapes the
    function, skipping the commit).  The Bool is `true` iff no statement
    failed. -/
def persistOps (fails : Nat → Bool) : List Issue → Nat → List PgOp × Bool
  | [], _ => ([PgOp.commitTx], true)
  | i :: rest, n =>
    if fails n then ([], false)
    else
      let r := persistOps fails rest (n + 1)
      (PgOp.upsert i :: r.1, r.2)

/-- Modelled from the spec: the transactional semantics of the database
    connection (psycopg2 / PostgreSQL), which is outside src/main.py —
    "All statements execute within a single transaction scope, committed
    once after the full batch completes", with standard atomic-commit
    semantics.  Upserts act on the in-transaction `pending` state; only
    `commitTx` publishes it to the `committed` table; a transaction never
    committed is rolled back, leaving `committed` untouched. -/
def applyOps : List Issue → List Issue → List PgOp → List Issue
  | committed, _, [] => committed
  | committed, pending, PgOp.upsert i :: rest => applyOps committed (upsertRow pending i) rest
  | _, pending, PgOp.commitTx :: rest => applyOps pending pending rest

/-- Running the persister against a table: the committed table after the
    run, and whether the batch succeeded. -/
def runPersist (fails : Nat → Bool) (table : List Issue) (issues : List Issue) :
    List Issue × Bool :=
  let r := persistOps fails issues 0
  (applyOps table table r.1, r.2)

/-- Days since 1970-01-01 of a Gregorian calendar date (civil-from-days
    inverse, Howard Hinnant's algorithm), used to state what UTC calendar
    date-time a modelled timestamp denotes. -/
def daysFromCivil (y : Int) (m d : Nat) : Int :=
  let y' : Int := if m ≤ 2 then y - 1 else y
  let era : Int := (if 0 ≤ y' then y' else y' - 399) / 400
  let yoe : Int := y' - era * 400
  let doy : Int := (153 * ((m : Int) + (if 2 < m then -3 else 9)) + 2) / 5 + (d : Int) - 1
  let doe : Int := yoe * 365 + yoe / 4 - yoe / 100 + doy
  era * 146097 + doe - 719468

/-- Unix epoch milliseconds of a UTC calendar date-time. -/
def utcToEpochMs (y : Int) (mo d h mi s : Nat) : Int :=
  (daysFromCivil y mo d * 86400 + (h : Int) * 3600 + (mi : Int) * 60 + (s : Int)) * 1000

example : utcToEpochMs 2023 11 14 22 13 20 = 1700000000000 := by rfl
example : mapIssue [] =
    some ⟨"N/A", "N/A", some "N/A", "N/A", "N/A", none, none, some 0, some 0⟩ := by rfl

/-- A well-formed custom-field entry, as the API returns them. -/
def mkField (name : String) (value : JVal) : JVal :=
  JVal.obj [("name", JVal.str name), ("value", value)]

/-- The custom-field lookup as performed inside `get_issues` on a raw
    record: `get_custom_field_value(issue.get('customFields', []), name)`. -/
def getCF (r : RawRecord) (name : String) : Option JVal :=
  (asArr (recGetD r "customFields" (JVal.arr []))).bind
    (fun cfs => get_custom_field_value cfs name)

/-- The issue `mapIssue` produces from an empty raw record (every
    top-level field defaulted, no custom fields). -/
def exIssueEmpty : Issue :=
  ⟨"N/A", "N/A", some "N/A", "N/A", "N/A", none, none, some 0, some 0⟩

lemma kwargsGet_empty (u : Char) : kwargsGet emptyKwargs u = none := by
  unfold kwargsGet emptyKwargs
  split_ifs <;> rfl

lemma kwargsGet_setUnit_self {u : Char} (hu : u ∈ unitChars) (k : TimeKwargs) (n : Nat) :
    kwargsGet (setUnit k u n) u = some n := by
  have h4 : u = 'н' ∨ u = 'д' ∨ u = 'ч' ∨ u = 'м' := by simpa [unitChars] using hu
  rcases h4 with rfl | rfl | rfl | rfl <;> rfl

lemma kwargsGet_setUnit_ne {u v : Char} (hu : u ∈ unitChars) (hne : v ≠ u)
    (k : TimeKwargs) (n : Nat) : kwargsGet (setUnit k v n) u = kwargsGet k u := by
  have h4 : u = 'н' ∨ u = 'д' ∨ u = 'ч' ∨ u = 'м' := by simpa [unitChars] using hu
  rcases h4 with rfl | rfl | rfl | rfl <;> unfold setUnit kwargsGet <;>
    split_ifs <;> simp_all

lemma kwargsGet_kwStep_ne {u : Char} (hu : u ∈ unitChars) (k : TimeKwargs)
    {t : Nat × Char} (hne : t.2 ≠ u) : kwargsGet (kwStep k t) u = kwargsGet k u := by
  unfold kwStep
  split_ifs with h
  · exact kwargsGet_setUnit_ne hu hne k t.1
  · rfl

/-- Last-occurrence-wins characterization of the kwargs dictionary: the
    entry for a unit is the amount of the last token carrying it. -/
lemma kwargsGet_buildKwargs {u : Char} (hu : u ∈ unitChars) (toks : List (Nat × Char)) :
    kwargsGet (buildKwargs toks) u
      = ((toks.filter (fun t => t.2 == u)).getLast?).map Prod.fst := by
  induction toks using List.reverseRecOn with
  | nil => simp [buildKwargs, List.foldl_nil, kwargsGet_empty]
  | append_singleton ts t ih =>
    have hfold : buildKwargs (ts ++ [t]) = kwStep (buildKwargs ts) t := by
      simp [buildKwargs, List.foldl_append]
    by_cases ht : t.2 = u
    · have htu : t.2 ∈ unitChars := ht ▸ hu
      rw [hfold]
      unfold kwStep
      rw [if_pos htu, ht, kwargsGet_setUnit_self hu _ _]
      rw [List.filter_append]
      simp [ht]
    · rw [hfold, kwargsGet_kwStep_ne hu _ ht, ih, List.filter_append]
      simp [ht]

lemma parse_time_string_nonneg {v : JVal} {m : Int}
    (h : parse_time_string v = some m) : 0 ≤ m := by
  unfold parse_time_string at h
  split at h
  · cases v <;> simp_all
    omega
  · simp_all

/-- Inversion of a successful `mapIssue`: names every intermediate value
    of the loop body and ties the produced issue's fields to them. -/
lemma mapIssue_inv {r : RawRecord} {i : Issue} (h : mapIssue r = some i) :
    ∃ projectV reporterV cfs statusV estimationV timeSpentV startV estMin spentMin,
      pyDictGetD (recGetD r "project" (JVal.obj [])) "name" (JVal.str "N/A") = some projectV ∧
      pyDictGetD (recGetD r "reporter" (JVal.obj [])) "fullName" (JVal.str "N/A") = some reporterV ∧
      asArr (recGetD r "customFields" (JVal.arr [])) = some cfs ∧
      get_custom_field_value cfs "Статус DEV" = some statusV ∧
      get_custom_field_value cfs "Оценка" = some estimationV ∧
      get_custom_field_value cfs "Реально затраченное время" = some timeSpentV ∧
      get_custom_field_value cfs "Дата начала" = some startV ∧
      parse_time_string estimationV = some estMin ∧
      parse_time_string timeSpentV = some spentMin ∧
      i.start_date = startDateOf startV ∧
      i.estimation = some estMin ∧
      i.time_spent = some spentMin ∧
      (∃ project, pyStr projectV = some project ∧ i.project = project) ∧
      (∃ reporter, pyStr reporterV = some reporter ∧ i.reporter = reporter) := by
  unfold mapIssue at h
  obtain ⟨pV, hpV, h⟩ := Option.bind_eq_some.mp h
  obtain ⟨rV, hrV, h⟩ := Option.bind_eq_some.mp h
  obtain ⟨cfs, hcfs, h⟩ := Option.bind_eq_some.mp h
  obtain ⟨sV, hsV, h⟩ := Option.bind_eq_some.mp h
  obtain ⟨eV, heV, h⟩ := Option.bind_eq_some.mp h
  obtain ⟨tV, htV, h⟩ := Option.bind_eq_some.mp h
  obtain ⟨stV, hstV, h⟩ := Option.bind_eq_some.mp h
  obtain ⟨eM, heM, h⟩ := Option.bind_eq_some.mp h
  obtain ⟨tM, htM, h⟩ := Option.bind_eq_some.mp h
  obtain ⟨iid, hiid, h⟩ := Option.bind_eq_some.mp h
  obtain ⟨summ, hsumm, h⟩ := Option.bind_eq_some.mp h
  obtain ⟨desc, hdesc, h⟩ := Option.bind_eq_some.mp h
  obtain ⟨proj, hproj, h⟩ := Option.bind_eq_some.mp h
  obtain ⟨rep, hrep, h⟩ := Option.bind_eq_some.mp h
  obtain ⟨st, hst, hfin⟩ := Option.bind_eq_some.mp h
  have hi := Option.some.inj hfin
  subst hi
  exact ⟨pV, rV, cfs, sV, eV, tV, stV, eM, tM, hpV, hrV, hcfs, hsV, heV, htV,
    hstV, heM, htM, rfl, rfl, rfl, ⟨proj, hproj, rfl⟩, ⟨rep, hrep, rfl⟩⟩

/-- C5 counterexample: a matching custom field whose structured value has
    neither a `presentation` nor a `name` sub-value does NOT come back as
    the structured object itself — the extractor returns the absent
    marker (Python `None`) instead. -/
theorem C5_extractor_counterexample :
    get_custom_field_value [mkField "X" (JVal.obj [])] "X" = some JVal.null
    ∧ JVal.null ≠ JVal.obj [] :=
  ⟨rfl, nofun⟩

/-- C5 (amended): the extractor returns the value of the first record
    whose name equals the target exactly (earlier non-matching,
    well-formed records are skipped); when that value is a structured
    object it returns its `presentation` sub-value when truthy, falling
    back to its `name` sub-value, and when neither key is present it
    returns the absent marker (`None`), not the structured object; a
    non-structured value is returned unmodified; when no record matches
    it returns the absent marker, distinguishable from an empty string. -/
theorem C5_extractor_behavior :
    (∀ pre rest target,
      (∀ g ∈ pre, ∃ d nv, g = JVal.obj d ∧ objFind d "name" = some nv ∧
          isStrEq nv target = false) →
      get_custom_field_value (pre ++ rest) target = get_custom_field_value rest target)
    ∧ (∀ target vd rest, truthy (objGet vd "presentation") = true →
      get_custom_field_value (mkField target (JVal.obj vd) :: rest) target
        = some (objGet vd "presentation"))
    ∧ (∀ target vd rest, truthy (objGet vd "presentation") = false →
      get_custom_field_value (mkField target (JVal.obj vd) :: rest) target
        = some (objGet vd "name"))
    ∧ (∀ target vd rest, objFind vd "presentation" = none → objFind vd "name" = none →
      get_custom_field_value (mkField target (JVal.obj vd) :: rest) target
        = some JVal.null)
    ∧ (∀ target v rest, (∀ d, v ≠ JVal.obj d) →
      get_custom_field_value (mkField target v :: rest) target = some v)
    ∧ (∀ target, get_custom_field_value [] target = some JVal.null)
    ∧ JVal.null ≠ JVal.str "" := by
  refine ⟨?_, ?_, ?_, ?_, ?_, fun _ => rfl, nofun⟩
  · intro pre rest target hpre
    induction pre with
    | nil => rfl
    | cons g gs ih =>
      obtain ⟨d, nv, rfl, hfind, hne⟩ := hpre g (List.mem_cons_self g gs)
      have hrest : ∀ g ∈ gs, ∃ d nv, g = JVal.obj d ∧ objFind d "name" = some nv ∧
          isStrEq nv target = false :=
        fun g hg => hpre g (List.mem_cons_of_mem _ hg)
      simp only [List.cons_append, get_custom_field_value, hfind, hne]
      exact ih hrest
  · intro target vd rest hp
    simp [get_custom_field_value, mkField, objFind, isStrEq, pyOr, hp]
  · intro target vd rest hp
    simp [get_custom_field_value, mkField, objFind, isStrEq, pyOr, hp]
  · intro target vd rest hp hn
    have hp' : objGet vd "presentation" = JVal.null := by simp [objGet, hp]
    have hn' : objGet vd "name" = JVal.null := by simp [objGet, hn]
    simp [get_custom_field_value, mkField, objFind, isStrEq, pyOr, hp', hn', truthy]
  · intro target v rest hv
    cases v with
    | obj d => exact absurd rfl (hv d)
    | null => simp [get_custom_field_value, mkField, objFind, isStrEq]
    | int n => simp [get_custom_field_value, mkField, objFind, isStrEq]
    | str s => simp [get_custom_field_value, mkField, objFind, isStrEq]
    | arr l => simp [get_custom_field_value, mkField, objFind, isStrEq]

/-- C5 witness: skipping one non-matching record, then returning a plain
    string value unmodified. -/
theorem C5_extractor_behavior_witness :
    get_custom_field_value [mkField "other" (JVal.str "x"), mkField "Оценка" (JVal.str "2д")]
      "Оценка" = some (JVal.str "2д") := by
  have hskip := C5_extractor_behavior.1 [mkField "other" (JVal.str "x")]
    [mkField "Оценка" (JVal.str "2д")] "Оценка"
    (by intro g hg
        simp only [List.mem_singleton] at hg
        exact ⟨_, JVal.str "other", hg, rfl, rfl⟩)
  have hval := C5_extractor_behavior.2.2.2.2.1 "Оценка" (JVal.str "2д") [] (by intro d; nofun)
  calc get_custom_field_value [mkField "other" (JVal.str "x"), mkField "Оценка" (JVal.str "2д")]
        "Оценка"
      = get_custom_field_value [mkField "Оценка" (JVal.str "2д")] "Оценка" := hskip
    _ = some (JVal.str "2д") := hval

/-- C9: when the structured value carries a `presentation` key whose value
    is falsy (e.g. the empty string), the extractor falls back to the
    `name` sub-value — the fallback triggers on Python falsiness of
    `presentation`, not only on its absence. -/
theorem C9_presentation_falsy_fallback (vd : List (String × JVal)) (pv : JVal)
    (hfind : objFind vd "presentation" = some pv) (hfalsy : truthy pv = false)
    (target : String) (rest : List JVal) :
    get_custom_field_value (mkField target (JVal.obj vd) :: rest) target
      = some (objGet vd "name") := by
  have hp : objGet vd "presentation" = pv := by simp [objGet, hfind]
  simp [get_custom_field_value, mkField, objFind, isStrEq, pyOr, hp, hfalsy]

/-- C9 witness: presentation present but empty, name `"Bob"` → `"Bob"`. -/
theorem C9_presentation_falsy_fallback_witness :
    get_custom_field_value
      [mkField "F" (JVal.obj [("presentation", JVal.str ""), ("name", JVal.str "Bob")])]
      "F" = some (JVal.str "Bob") := by
  have h := C9_presentation_falsy_fallback
    [("presentation", JVal.str ""), ("name", JVal.str "Bob")] (JVal.str "") rfl rfl "F" []
  simpa [objGet, objFind] using h

/-- C6: the Duration Parser extracts every `<integer><unit>` token,
    ignoring non-matching substrings ("ab!2д_3ч" yields exactly the
    tokens 2д and 3ч), and a repeated unit overwrites instead of
    accumulating: the kwargs entry of a unit is always the amount of the
    last token carrying it; in particular "2д3ч" parses to 2 days + 3
    hours and "5ч5ч" to 5 hours, not 10. -/
theorem C6_duration_parsing :
    parse_time_string (JVal.str "2д3ч") = some (2 * 1440 + 3 * 60)
    ∧ parse_time_string (JVal.str "5ч5ч") = some (5 * 60)
    ∧ parse_time_string (JVal.str "5ч5ч") ≠ some (10 * 60)
    ∧ findTokens "ab!2д_3ч".data = [(2, 'д'), (3, 'ч')]
    ∧ (∀ toks u, u ∈ unitChars →
        kwargsGet (buildKwargs toks) u
          = ((toks.filter (fun t => t.2 == u)).getLast?).map Prod.fst) := by
  refine ⟨rfl, rfl, by decide, rfl, ?_⟩
  intro toks u hu
  exact kwargsGet_buildKwargs hu toks

/-- C6 witness: two tokens with the same unit — the kwargs entry holds
    the last amount. -/
theorem C6_duration_parsing_witness :
    kwargsGet (buildKwargs [(5, 'ч'), (7, 'ч')]) 'ч' = some 7 := by
  have h := C6_duration_parsing.2.2.2.2 [(5, 'ч'), (7, 'ч')] 'ч' (by decide)
  rw [h]
  rfl

/-- C7: every successfully fetched issue has `estimation` and
    `time_spent` present (never null) and non-negative; moreover the
    Duration Parser turns null, empty, or entirely malformed input into
    the zero duration rather than an error. -/
theorem C7_durations_total :
    (∀ r i, mapIssue r = some i →
      (∃ e, i.estimation = some e ∧ 0 ≤ e) ∧ (∃ t, i.time_spent = some t ∧ 0 ≤ t))
    ∧ parse_time_string JVal.null = some 0
    ∧ parse_time_string (JVal.str "") = some 0
    ∧ (∀ s : String, findTokens s.data = [] → parse_time_string (JVal.str s) = some 0) := by
  refine ⟨?_, rfl, rfl, ?_⟩
  · intro r i h
    obtain ⟨_, _, _, _, _, _, _, eM, tM, _, _, _, _, _, _, _, heM, htM,
      _, hest, hspent, _, _⟩ := mapIssue_inv h
    exact ⟨⟨eM, hest, parse_time_string_nonneg heM⟩,
           ⟨tM, hspent, parse_time_string_nonneg htM⟩⟩
  · intro s hs
    unfold parse_time_string
    split
    · simp [hs, buildKwargs, toMinutes, emptyKwargs]
    · rfl

/-- C7 witness: the empty raw record maps successfully and its durations
    are present and non-negative; `"abc"` has no tokens and parses to
    zero. -/
theorem C7_durations_total_witness :
    ((∃ e, exIssueEmpty.estimation = some e ∧ 0 ≤ e)
      ∧ (∃ t, exIssueEmpty.time_spent = some t ∧ 0 ≤ t))
    ∧ parse_time_string (JVal.str "abc") = some 0 :=
  ⟨C7_durations_total.1 [] exIssueEmpty rfl, C7_durations_total.2.2.2 "abc" rfl⟩

lemma mapRecords_append (l1 l2 : List RawRecord) :
    mapRecords (l1 ++ l2)
      = (mapRecords l1).bind (fun a => (mapRecords l2).map (fun b => a ++ b)) := by
  induction l1 with
  | nil =>
    cases h : mapRecords l2 <;> simp [mapRecords, h]
  | cons r rs ih =>
    cases h1 : mapIssue r <;> cases h2 : mapRecords rs <;> cases h3 : mapRecords l2 <;>
      simp [mapRecords, ih, h1, h2, h3]

lemma pageOffsets_snoc (n : Nat) : ∀ s : Nat,
    pageOffsets s (n + 1) = pageOffsets s n ++ [s + batch_size * n] := by
  induction n with
  | zero => intro s; simp [pageOffsets]
  | succ m ih =>
    intro s
    have harith : s + batch_size + batch_size * m = s + batch_size * (m + 1) := by ring
    calc pageOffsets s (m + 2)
        = s :: pageOffsets (s + batch_size) (m + 1) := rfl
      _ = s :: (pageOffsets (s + batch_size) m ++ [s + batch_size + batch_size * m]) := by
          rw [ih]
      _ = pageOffsets s (m + 1) ++ [s + batch_size * (m + 1)] := by
          rw [harith]; rfl

/-- Running the pagination loop through a block of successful, non-empty
    pages: the loop consumes them, accumulating their mapped issues and
    one offset per request, then continues with whatever responses
    follow. -/
lemma get_issues_loop_ok_pages (pages : List (List RawRecord)) (rest : List HResp)
    (start : Nat) (offsets : List Nat) (acc iss : List Issue)
    (hne : ∀ p ∈ pages, p ≠ []) (hmap : mapRecords pages.flatten = some iss) :
    get_issues_loop (pages.map mkOk ++ rest) start offsets acc
      = get_issues_loop rest (start + batch_size * pages.length)
          (offsets ++ pageOffsets start pages.length) (acc ++ iss) := by
  induction pages generalizing start offsets acc iss with
  | nil =>
    have hiss : iss = [] := by simpa [mapRecords] using hmap.symm
    subst hiss
    simp [pageOffsets]
  | cons p ps ih =>
    have hp : p ≠ [] := hne p (List.mem_cons_self _ _)
    have hne' : ∀ q ∈ ps, q ≠ [] := fun q hq => hne q (List.mem_cons_of_mem _ hq)
    have hjoin : (p :: ps).flatten = p ++ ps.flatten := by simp
    rw [hjoin, mapRecords_append] at hmap
    cases h1 : mapRecords p with
    | none => rw [h1] at hmap; simp at hmap
    | some i1 =>
      rw [h1] at hmap
      cases h2 : mapRecords ps.flatten with
      | none => rw [h2] at hmap; simp at hmap
      | some i2 =>
        rw [h2] at hmap
        have hiss : iss = i1 ++ i2 := by simpa using hmap.symm
        subst hiss
        obtain ⟨a, as, rfl⟩ := List.exists_cons_of_ne_nil hp
        have hstep : get_issues_loop (List.map mkOk ((a :: as) :: ps) ++ rest) start offsets acc
            = get_issues_loop (ps.map mkOk ++ rest) (start + batch_size)
                (offsets ++ [start]) (acc ++ i1) := by
          simp [get_issues_loop, mkOk, h1]
        rw [hstep, ih (start + batch_size) (offsets ++ [start]) (acc ++ i1) i2 hne' h2]
        have harith : start + batch_size + batch_size * ps.length
            = start + batch_size * (ps.length + 1) := by ring
        have hoffs : (offsets ++ [start]) ++ pageOffsets (start + batch_size) ps.length
            = offsets ++ pageOffsets start (ps.length + 1) := by
          simp [pageOffsets]
        rw [harith, hoffs, List.append_assoc]
        rfl

/-- C1: for every sequence of non-empty server pages followed by an empty
    page, the fetcher requests successive offsets 0, 100, 200, ... (one
    request per page plus the empty terminator, regardless of what would
    come after), and returns the concatenation of all pages' mapped
    records in server-return order; in particular two full pages followed
    by an empty page yield both pages' records in order with exactly
    three requests, and a single short page is followed by exactly one
    more request (the empty terminator). -/
theorem C1_pagination :
    (∀ (pages : List (List RawRecord)) (rest : List HResp) (iss : List Issue),
      (∀ p ∈ pages, p ≠ []) → mapRecords pages.flatten = some iss →
      get_issues (pages.map mkOk ++ mkOk [] :: rest)
        = some (iss, pageOffsets 0 (pages.length + 1)))
    ∧ (∀ p1 p2 iss, p1.length = 100 → p2.length = 100 → mapRecords (p1 ++ p2) = some iss →
      get_issues [mkOk p1, mkOk p2, mkOk []] = some (iss, [0, 100, 200]))
    ∧ (∀ p iss, p ≠ [] → p.length < 100 → mapRecords p = some iss →
      get_issues [mkOk p, mkOk []] = some (iss, [0, 100])) := by
  have hgen : ∀ (pages : List (List RawRecord)) (rest : List HResp) (iss : List Issue),
      (∀ p ∈ pages, p ≠ []) → mapRecords pages.flatten = some iss →
      get_issues (pages.map mkOk ++ mkOk [] :: rest)
        = some (iss, pageOffsets 0 (pages.length + 1)) := by
    intro pages rest iss hne hmap
    unfold get_issues
    rw [get_issues_loop_ok_pages pages (mkOk [] :: rest) 0 [] [] iss hne hmap]
    rw [pageOffsets_snoc]
    simp [get_issues_loop, mkOk]
  refine ⟨hgen, ?_, ?_⟩
  · intro p1 p2 iss h1 h2 hmap
    have hne : ∀ p ∈ [p1, p2], p ≠ [] := by
      intro q hq
      rcases List.mem_pair.mp hq with rfl | rfl
      · intro hq0; rw [hq0] at h1; simp at h1
      · intro hq0; rw [hq0] at h2; simp at h2
    have := hgen [p1, p2] [] iss hne (by simpa using hmap)
    simpa [pageOffsets, batch_size] using this
  · intro p iss hp hlen hmap
    have := hgen [p] [] iss (by simpa using hp) (by simpa using hmap)
    simpa [pageOffsets, batch_size] using this

/-- C1 witness: one page holding a single (empty) record, then the empty
    terminator — exactly two requests, at offsets 0 and 100. -/
theorem C1_pagination_witness :
    get_issues [mkOk [[]], mkOk []] = some ([exIssueEmpty], [0, 100]) :=
  C1_pagination.2.2 [[]] [exIssueEmpty] (List.cons_ne_nil _ _) (by decide) rfl

/-- C2: a non-200 response anywhere in the pagination stops the loop
    immediately (whatever responses would follow are never requested) and
    the fetcher returns exactly the issues accumulated from the pages
    already fetched — no exception surfaces; with one successful page
    before the failure, the result is exactly that page's records. -/
theorem C2_error_abort :
    ∀ (pages : List (List RawRecord)) (iss : List Issue) (s : Nat)
      (junk : List RawRecord) (rest : List HResp),
      (∀ p ∈ pages, p ≠ []) → mapRecords pages.flatten = some iss → s ≠ 200 →
      get_issues (pages.map mkOk ++ HResp.mk s junk :: rest)
        = some (iss, pageOffsets 0 (pages.length + 1)) := by
  intro pages iss s junk rest hne hmap hs
  unfold get_issues
  rw [get_issues_loop_ok_pages pages (HResp.mk s junk :: rest) 0 [] [] iss hne hmap]
  rw [pageOffsets_snoc]
  simp [get_issues_loop, hs]

/-- C2 witness: first page (one empty record) succeeds, second request
    returns status 500 — result is exactly the first page's issue. -/
theorem C2_error_abort_witness :
    get_issues [mkOk [[]], HResp.mk 500 []] = some ([exIssueEmpty], [0, 100]) := by
  have h := C2_error_abort [[[]]] [exIssueEmpty] 500 [] []
    (by intro q hq; simp only [List.mem_singleton] at hq; subst hq; exact List.cons_ne_nil _ _)
    rfl (by decide)
  simpa [pageOffsets, batch_size] using h

/-- Two payloads sharing the same `issue_id` with different columns. -/
def exIssueA1 : Issue := ⟨"A-1", "first", none, "P", "R", none, none, some 0, some 0⟩

def exIssueA2 : Issue := ⟨"A-1", "second", some "d", "P", "R", some "Done", none, some 60, some 0⟩

/-- A raw record whose start-date custom field holds the integer
    1700000000000 (Unix milliseconds). -/
def exRecordStart : RawRecord :=
  [("customFields", JVal.arr [mkField "Дата начала" (JVal.int 1700000000000)])]

/-- The issue `mapIssue` produces from `exRecordStart`. -/
def exIssueStart : Issue :=
  ⟨"N/A", "N/A", some "N/A", "N/A", "N/A", none, some 1700000000000, some 0, some 0⟩

example : mapIssue exRecordStart = some exIssueStart := by rfl

lemma rowsFor_overwrite (i : Issue) : ∀ t : List Issue, uniqueIds t →
    ∀ r ∈ t, r.issue_id = i.issue_id →
    rowsFor (t.map (fun x => if x.issue_id = i.issue_id then i else x)) i.issue_id = [i] := by
  intro t
  induction t with
  | nil => intro _ r hr; exact absurd hr (List.not_mem_nil r)
  | cons a ts ih =>
    intro hu r hr hid
    obtain ⟨hhead, hu'⟩ := List.pairwise_cons.mp hu
    rcases List.mem_cons.mp hr with rfl | hr'
    · have hrest : List.filter (fun x => x.issue_id == i.issue_id)
          (ts.map (fun x => if x.issue_id = i.issue_id then i else x)) = [] := by
        apply List.filter_eq_nil_iff.mpr
        intro b hb
        obtain ⟨x, hx, rfl⟩ := List.mem_map.mp hb
        have hxne : x.issue_id ≠ i.issue_id := fun h => hhead x hx (hid.trans h.symm)
        rw [if_neg hxne]
        simpa using hxne
      unfold rowsFor
      rw [List.map_cons, if_pos hid, List.filter_cons_of_pos (by simp)]
      rw [hrest]
    · have hane : a.issue_id ≠ i.issue_id := fun h => hhead r hr' (h.trans hid.symm)
      unfold rowsFor
      rw [List.map_cons, if_neg hane, List.filter_cons_of_neg (by simpa using hane)]
      have hrec := ih hu' r hr' hid
      unfold rowsFor at hrec
      exact hrec

lemma uniqueIds_upsertRow {t : List Issue} (hu : uniqueIds t) (i : Issue) :
    uniqueIds (upsertRow t i) := by
  unfold upsertRow uniqueIds
  split
  · refine List.Pairwise.map _ ?_ hu
    intro a b hab
    by_cases ha : a.issue_id = i.issue_id <;> by_cases hb : b.issue_id = i.issue_id
    · exact absurd (ha.trans hb.symm) hab
    · rw [if_pos ha, if_neg hb]; exact fun hh => hb hh.symm
    · rw [if_neg ha, if_pos hb]; exact fun hh => ha hh
    · rw [if_neg ha, if_neg hb]; exact hab
  · rename_i h
    push_neg at h
    refine List.pairwise_append.mpr ⟨hu, List.pairwise_singleton _ _, ?_⟩
    intro a ha b hb
    simp only [List.mem_singleton] at hb
    subst hb
    exact h a ha

lemma mem_upsertRow (t : List Issue) (i : Issue) : i ∈ upsertRow t i := by
  unfold upsertRow
  split
  · rename_i h
    obtain ⟨r, hr, hid⟩ := h
    exact List.mem_map.mpr ⟨r, hr, by rw [if_pos hid]⟩
  · simp

/-- C3: the persister applies one upsert per entity in sequence order
    (the batch is a left fold of single-row upserts); a fresh `issue_id`
    is appended as a new row; on a conflicting `issue_id` the stored row
    is overwritten wholesale with the new entity (every non-key column
    takes the new values); hence persisting two entities sharing an
    `issue_id` — in particular the same entity twice — leaves exactly one
    row for that id, equal to the later payload. -/
theorem C3_upsert_semantics :
    (∀ (t : List Issue) (i : Issue) (is : List Issue),
      insert_into_postgres t (i :: is) = insert_into_postgres (upsertRow t i) is)
    ∧ (∀ (t : List Issue) (i : Issue), (∀ r ∈ t, r.issue_id ≠ i.issue_id) →
      upsertRow t i = t ++ [i])
    ∧ (∀ (t : List Issue) (i r : Issue), uniqueIds t → r ∈ t →
      r.issue_id = i.issue_id → rowsFor (upsertRow t i) i.issue_id = [i])
    ∧ (∀ (t : List Issue) (i j : Issue), uniqueIds t → i.issue_id = j.issue_id →
      rowsFor (insert_into_postgres t [i, j]) j.issue_id = [j]) := by
  have hconf : ∀ (t : List Issue) (i r : Issue), uniqueIds t → r ∈ t →
      r.issue_id = i.issue_id → rowsFor (upsertRow t i) i.issue_id = [i] := by
    intro t i r hu hr hid
    unfold upsertRow
    rw [if_pos ⟨r, hr, hid⟩]
    exact rowsFor_overwrite i t hu r hr hid
  refine ⟨fun t i is => rfl, ?_, hconf, ?_⟩
  · intro t i hno
    unfold upsertRow
    rw [if_neg ?hno]
    case hno =>
      rintro ⟨r, hr, hid⟩
      exact hno r hr hid
  · intro t i j hu hid
    have h1 : insert_into_postgres t [i, j] = upsertRow (upsertRow t i) j := rfl
    rw [h1]
    exact hconf (upsertRow t i) j i (uniqueIds_upsertRow hu i) (mem_upsertRow t i) hid

/-- C3 witness: the same `issue_id` persisted twice into an empty table —
    one row remains, holding the second payload. -/
theorem C3_upsert_semantics_witness :
    rowsFor (insert_into_postgres [] [exIssueA1, exIssueA2]) exIssueA2.issue_id
      = [exIssueA2] :=
  C3_upsert_semantics.2.2.2 [] exIssueA1 exIssueA2 (List.Pairwise.nil) rfl

lemma persistOps_ok (issues : List Issue) : ∀ n : Nat,
    persistOps (fun _ => false) issues n
      = (issues.map PgOp.upsert ++ [PgOp.commitTx], true) := by
  induction issues with
  | nil => intro n; rfl
  | cons i is ih => intro n; simp [persistOps, ih (n + 1)]

lemma applyOps_upserts (is : List Issue) : ∀ (c p : List Issue) (rest : List PgOp),
    applyOps c p (is.map PgOp.upsert ++ rest) = applyOps c (is.foldl upsertRow p) rest := by
  induction is with
  | nil => intro c p rest; rfl
  | cons i tl ih => intro c p rest; simp only [List.map_cons, List.cons_append,
      applyOps, List.foldl_cons]; exact ih c (upsertRow p i) rest

lemma persistOps_fail_no_commit (fails : Nat → Bool) (issues : List Issue) : ∀ n : Nat,
    (persistOps fails issues n).2 = false →
    PgOp.commitTx ∉ (persistOps fails issues n).1 := by
  induction issues with
  | nil => intro n h; simp [persistOps] at h
  | cons i is ih =>
    intro n h
    unfold persistOps at h ⊢
    by_cases hf : fails n
    · simp [hf]
    · simp only [hf, if_false, Bool.false_eq_true] at h ⊢
      simp only [List.mem_cons, not_or]
      exact ⟨nofun, ih (n + 1) h⟩

lemma applyOps_no_commit (ops : List PgOp) : ∀ c p : List Issue,
    PgOp.commitTx ∉ ops → applyOps c p ops = c := by
  induction ops with
  | nil => intro c p _; rfl
  | cons o os ih =>
    intro c p h
    rw [List.mem_cons, not_or] at h
    cases o with
    | upsert i => exact ih c (upsertRow p i) h.2
    | commitTx => exact absurd rfl h.1

/-- C8: when no statement fails, the persister's operation trace is
    exactly one upsert per entity followed by a single commit, and the
    committed table is the whole batch applied; when any statement fails
    partway, no commit is ever issued and the committed table is exactly
    what it was before the batch — no partial subset of the batch becomes
    visible. -/
theorem C8_single_transaction :
    (∀ (t issues : List Issue),
      runPersist (fun _ => false) t issues = (insert_into_postgres t issues, true))
    ∧ (∀ issues : List Issue,
      (persistOps (fun _ => false) issues 0).1 = issues.map PgOp.upsert ++ [PgOp.commitTx])
    ∧ (∀ (fails : Nat → Bool) (t issues : List Issue),
      (persistOps fails issues 0).2 = false → (runPersist fails t issues).1 = t) := by
  refine ⟨?_, ?_, ?_⟩
  · intro t issues
    show (applyOps t t (persistOps (fun _ => false) issues 0).1,
          (persistOps (fun _ => false) issues 0).2) = _
    rw [persistOps_ok]
    rw [applyOps_upserts issues t t [PgOp.commitTx]]
    rfl
  · intro issues
    rw [persistOps_ok]
  · intro fails t issues h
    show applyOps t t (persistOps fails issues 0).1 = t
    exact applyOps_no_commit _ t t (persistOps_fail_no_commit fails issues 0 h)

/-- C8 witness: a batch whose very first statement fails leaves the
    pre-existing table exactly as it was. -/
theorem C8_single_transaction_witness :
    (runPersist (fun _ => true) [exIssueA1] [exIssueA2]).1 = [exIssueA1] :=
  C8_single_transaction.2.2 (fun _ => true) [exIssueA1] [exIssueA2] rfl

/-- C4: for a mapped record whose start-date custom field resolved to an
    integer `n`, the issue's start date is the timestamp at `n` Unix
    milliseconds; a value of any other shape (including the `None` of an
    absent field) leaves the start date absent; concretely, the integer
    1700000000000 yields exactly the timestamp of 2023-11-14T22:13:20Z. -/
theorem C4_start_date :
    (∀ (r : RawRecord) (i : Issue) (n : Int), mapIssue r = some i →
      getCF r "Дата начала" = some (JVal.int n) → i.start_date = some n)
    ∧ (∀ (r : RawRecord) (i : Issue) (v : JVal), mapIssue r = some i →
      getCF r "Дата начала" = some v → (∀ n : Int, v ≠ JVal.int n) →
      i.start_date = none)
    ∧ mapIssue exRecordStart = some exIssueStart
    ∧ exIssueStart.start_date = some (utcToEpochMs 2023 11 14 22 13 20)
    ∧ utcToEpochMs 2023 11 14 22 13 20 = 1700000000000 := by
  refine ⟨?_, ?_, rfl, rfl, rfl⟩
  · intro r i n hmap hcf
    obtain ⟨pV, rV, cfs, sV, eV, tV, stV, eM, tM, hpV, hrV, hcfs, hsV, heV, htV,
      hstV, heM, htM, hsd, _, _, _, _⟩ := mapIssue_inv hmap
    unfold getCF at hcf
    rw [hcfs] at hcf
    simp only [Option.some_bind] at hcf
    rw [hstV] at hcf
    have hv : stV = JVal.int n := Option.some.inj hcf
    rw [hsd, hv]
    rfl
  · intro r i v hmap hcf hv
    obtain ⟨pV, rV, cfs, sV, eV, tV, stV, eM, tM, hpV, hrV, hcfs, hsV, heV, htV,
      hstV, heM, htM, hsd, _, _, _, _⟩ := mapIssue_inv hmap
    unfold getCF at hcf
    rw [hcfs] at hcf
    simp only [Option.some_bind] at hcf
    rw [hstV] at hcf
    have hveq : stV = v := Option.some.inj hcf
    rw [hsd, hveq]
    cases v with
    | int n => exact absurd rfl (hv n)
    | null => rfl
    | str s => rfl
    | arr l => rfl
    | obj d => rfl

/-- C4 witness: the concrete record with start-date 1700000000000 ms. -/
theorem C4_start_date_witness : exIssueStart.start_date = some 1700000000000 :=
  C4_start_date.1 exRecordStart exIssueStart 1700000000000 rfl rfl

/-- C10 counterexample: a record whose `project` key IS present (as an
    object without a `name` sub-field) still maps without error and still
    gets the "N/A" default — so the default does not apply only when the
    key is missing from the raw record. -/
theorem C10_na_default_counterexample :
    objFind [("project", JVal.obj [])] "project" = some (JVal.obj [])
    ∧ mapIssue [("project", JVal.obj [])] = some exIssueEmpty
    ∧ exIssueEmpty.project = "N/A" :=
  ⟨rfl, rfl, rfl⟩

/-- C10 (amended): the "N/A" default for project/reporter applies when
    the key is missing from the raw record or when its object value lacks
    the `name`/`fullName` sub-field; a record carrying the key with a
    null value makes the fetcher raise while mapping instead of producing
    "N/A"; hence a record that maps without error has each of these keys
    either absent or object-valued. -/
theorem C10_null_key_error :
    (∀ r : RawRecord, objFind r "project" = some JVal.null → mapIssue r = none)
    ∧ (∀ r : RawRecord, objFind r "reporter" = some JVal.null → mapIssue r = none)
    ∧ (∀ (r : RawRecord) (i : Issue), mapIssue r = some i →
      (objFind r "project" = none ∨ ∃ d, objFind r "project" = some (JVal.obj d))
      ∧ (objFind r "reporter" = none ∨ ∃ d, objFind r "reporter" = some (JVal.obj d)))
    ∧ (∀ (r : RawRecord) (i : Issue), mapIssue r = some i →
      objFind r "project" = none → i.project = "N/A")
    ∧ (∀ (r : RawRecord) (i : Issue) (d : List (String × JVal)), mapIssue r = some i →
      objFind r "project" = some (JVal.obj d) → objFind d "name" = none →
      i.project = "N/A")
    ∧ (∀ (r : RawRecord) (i : Issue), mapIssue r = some i →
      objFind r "reporter" = none → i.reporter = "N/A")
    ∧ (∀ (r : RawRecord) (i : Issue) (d : List (String × JVal)), mapIssue r = some i →
      objFind r "reporter" = some (JVal.obj d) → objFind d "fullName" = none →
      i.reporter = "N/A") := by
  refine ⟨?_, ?_, ?_, ?_, ?_, ?_, ?_⟩
  · intro r h
    have hr : recGetD r "project" (JVal.obj []) = JVal.null := by simp [recGetD, h]
    unfold mapIssue
    rw [hr]
    rfl
  · intro r h
    have hr : recGetD r "reporter" (JVal.obj []) = JVal.null := by simp [recGetD, h]
    unfold mapIssue
    rw [hr]
    cases pyDictGetD (recGetD r "project" (JVal.obj [])) "name" (JVal.str "N/A") <;> rfl
  · intro r i hmap
    obtain ⟨pV, rV, cfs, sV, eV, tV, stV, eM, tM, hpV, hrV, hcfs, hsV, heV, htV,
      hstV, heM, htM, hsd, _, _, _, _⟩ := mapIssue_inv hmap
    constructor
    · cases hv : recGetD r "project" (JVal.obj []) with
      | obj d =>
        unfold recGetD at hv
        cases hf : objFind r "project" with
        | none => exact Or.inl rfl
        | some w =>
          rw [hf] at hv
          simp only [Option.getD_some] at hv
          exact Or.inr ⟨d, by rw [hv]⟩
      | null => rw [hv] at hpV; simp [pyDictGetD] at hpV
      | int n => rw [hv] at hpV; simp [pyDictGetD] at hpV
      | str s => rw [hv] at hpV; simp [pyDictGetD] at hpV
      | arr l => rw [hv] at hpV; simp [pyDictGetD] at hpV
    · cases hv : recGetD r "reporter" (JVal.obj []) with
      | obj d =>
        unfold recGetD at hv
        cases hf : objFind r "reporter" with
        | none => exact Or.inl rfl
        | some w =>
          rw [hf] at hv
          simp only [Option.getD_some] at hv
          exact Or.inr ⟨d, by rw [hv]⟩
      | null => rw [hv] at hrV; simp [pyDictGetD] at hrV
      | int n => rw [hv] at hrV; simp [pyDictGetD] at hrV
      | str s => rw [hv] at hrV; simp [pyDictGetD] at hrV
      | arr l => rw [hv] at hrV; simp [pyDictGetD] at hrV
  · intro r i hmap hf
    obtain ⟨pV, rV, cfs, sV, eV, tV, stV, eM, tM, hpV, hrV, hcfs, hsV, heV, htV,
      hstV, heM, htM, hsd, _, _, ⟨project, hproj, hip⟩, _⟩ := mapIssue_inv hmap
    have hv : recGetD r "project" (JVal.obj []) = JVal.obj [] := by simp [recGetD, hf]
    rw [hv] at hpV
    have hpV' : pV = JVal.str "N/A" := by
      simpa [pyDictGetD, objFind] using hpV.symm
    rw [hpV'] at hproj
    rw [hip]
    exact (Option.some.inj hproj).symm
  · intro r i d hmap hf hname
    obtain ⟨pV, rV, cfs, sV, eV, tV, stV, eM, tM, hpV, hrV, hcfs, hsV, heV, htV,
      hstV, heM, htM, hsd, _, _, ⟨project, hproj, hip⟩, _⟩ := mapIssue_inv hmap
    have hv : recGetD r "project" (JVal.obj []) = JVal.obj d := by simp [recGetD, hf]
    rw [hv] at hpV
    have hpV' : pV = JVal.str "N/A" := by
      simpa [pyDictGetD, hname] using hpV.symm
    rw [hpV'] at hproj
    rw [hip]
    exact (Option.some.inj hproj).symm
  · intro r i hmap hf
    obtain ⟨pV, rV, cfs, sV, eV, tV, stV, eM, tM, hpV, hrV, hcfs, hsV, heV, htV,
      hstV, heM, htM, hsd, _, _, _, ⟨reporter, hrep, hir⟩⟩ := mapIssue_inv hmap
    have hv : recGetD r "reporter" (JVal.obj []) = JVal.obj [] := by simp [recGetD, hf]
    rw [hv] at hrV
    have hrV' : rV = JVal.str "N/A" := by
      simpa [pyDictGetD, objFind] using hrV.symm
    rw [hrV'] at hrep
    rw [hir]
    exact (Option.some.inj hrep).symm
  · intro r i d hmap hf hname
    obtain ⟨pV, rV, cfs, sV, eV, tV, stV, eM, tM, hpV, hrV, hcfs, hsV, heV, htV,
      hstV, heM, htM, hsd, _, _, _, ⟨reporter, hrep, hir⟩⟩ := mapIssue_inv hmap
    have hv : recGetD r "reporter" (JVal.obj []) = JVal.obj d := by simp [recGetD, hf]
    rw [hv] at hrV
    have hrV' : rV = JVal.str "N/A" := by
      simpa [pyDictGetD, hname] using hrV.symm
    rw [hrV'] at hrep
    rw [hir]
    exact (Option.some.inj hrep).symm

/-- C10 witness: records carrying `project` (resp. `reporter`) with a
    null value fail to map. -/
theorem C10_null_key_error_witness :
    mapIssue [("project", JVal.null)] = none
    ∧ mapIssue [("reporter", JVal.null)] = none :=
  ⟨C10_null_key_error.1 [("project", JVal.null)] rfl,
   C10_null_key_error.2.1 [("reporter", JVal.null)] rfl⟩
